import Mathlib

/-!
Verification of the document ingestion and retrieval-augmented analysis
pipeline of a legal-document analyzer web service.

The TypeScript source under scrutiny consists of two API route handlers:

* `upload-document/route.ts` — text cleaning (`cleanText`), validation
  (`isValidText`), chunking (`splitTextIntoChunks`), per-chunk embedding
  generation with fallback vectors (`generateEmbeddings`), and the upload
  POST handler which filters, embeds and upserts chunk vectors.
* `analyze-document/route.ts` — a filtered vector-store query (topK 20),
  prompt assembly from a prompt catalog, and a three-tier model fallback
  cascade (primary model, secondary model, basic extraction text).

Strings are embedded as `List Char` (named `Str` below).  Cursor positions
in the chunker are embedded as `Int`, because the JavaScript cursor
arithmetic `start = end - overlap` can go negative.  JavaScript's
`lastIndexOf`, `slice`, `trim` and the regex replacements used by the
source are given explicit executable models.  The floating-point ratio
comparison `printableCount / text.length > 0.7` is modelled with exact
rational arithmetic; for every string whose length is below 10^15 the
double-precision comparison in the source agrees with the rational one,
so the model is faithful on all representable inputs.
-/

/-- Strings are modelled as lists of characters. -/
abbrev Str := List Char

/-- Converts a Lean string literal to the `List Char` representation. -/
def str (s : String) : Str := s.data

/-- Decimal representation of a natural number, as a `Str` (models the
JavaScript number-to-string coercion inside template literals). -/
def natStr (n : Nat) : Str := (toString n).data

/-- Character class of the JavaScript regex `\s` (and of the character set
removed by `String.prototype.trim`): ASCII whitespace, NBSP and the
Unicode space separators, line/paragraph separators and the BOM. -/
def jsWs (c : Char) : Bool :=
  c = ' ' || c = '\t' || c = '\n' || c.toNat = 11 || c.toNat = 12 ||
  c = '\r' || c.toNat = 0xA0 || c.toNat = 0x1680 ||
  (0x2000 ≤ c.toNat && c.toNat ≤ 0x200A) || c.toNat = 0x2028 ||
  c.toNat = 0x2029 || c.toNat = 0x202F || c.toNat = 0x205F ||
  c.toNat = 0x3000 || c.toNat = 0xFEFF

/-- Models `String.prototype.lastIndexOf(c, fromIndex)` for a single-char
search string: the largest index `k ≤ min (max fromIndex 0) (length - 1)`
whose character equals `c`, and `-1` if there is none. -/
def jsLastIndexOf (l : Str) (c : Char) (fromIdx : Int) : Int :=
  let m : Int := min (max fromIdx 0) ((l.length : Int) - 1)
  (List.range l.length).foldl
    (fun acc (k : Nat) => if (k : Int) ≤ m ∧ l.getD k c = c then (k : Int) else acc)
    (-1)

/-- Models `String.prototype.slice(s, e)`: negative indices count from the
end, both endpoints are clamped to `[0, length]`, and an empty string is
returned when the resolved start is not below the resolved end. -/
def jsSlice (l : Str) (s e : Int) : Str :=
  let len : Int := l.length
  let f : Int := if s < 0 then max (len + s) 0 else min s len
  let t : Int := if e < 0 then max (len + e) 0 else min e len
  if f < t then (l.drop f.toNat).take (t - f).toNat else []

/-- Removes the longest run of `jsWs` characters at the end of the list
(the right half of `String.prototype.trim`). -/
def dropTrailWhile (p : Char → Bool) : Str → Str
  | [] => []
  | c :: rest =>
    let r := dropTrailWhile p rest
    if r = [] ∧ p c then [] else c :: r

/-- Models `String.prototype.trim`: removes `jsWs` characters from both
ends of the string. -/
def jsTrim (l : Str) : Str := dropTrailWhile jsWs (l.dropWhile jsWs)

/-- Worker of `collapseWs`: `prevWs` records whether the previous
character belonged to the current whitespace run (in which case the
single replacement space has already been emitted). -/
def collapseWsAux (prevWs : Bool) : Str → Str
  | [] => []
  | c :: rest =>
    if jsWs c then
      if prevWs then collapseWsAux true rest
      else ' ' :: collapseWsAux true rest
    else c :: collapseWsAux false rest

/-- Models the regex replacement `.replace(/\s+/g, ' ')`: every maximal
run of `jsWs` characters is replaced by a single space. -/
def collapseWs (l : Str) : Str := collapseWsAux false l

/-- Character class of the first regex in `cleanText`:
`[\x00-\x08\x0B\x0C\x0E-\x1F\x7F-\x9F]` (control characters). -/
def isCtl (c : Char) : Bool :=
  c.toNat ≤ 8 || c.toNat = 11 || c.toNat = 12 ||
  (14 ≤ c.toNat && c.toNat ≤ 31) || (127 ≤ c.toNat && c.toNat ≤ 159)

/-- First replacement of `cleanText`: control characters become spaces. -/
def stage1 (c : Char) : Char := if isCtl c then ' ' else c

/-- Printable-ASCII test `\x20-\x7E` used by `cleanText` and its comment. -/
def printableAscii (c : Char) : Bool := 32 ≤ c.toNat && c.toNat ≤ 126

/-- Second replacement of `cleanText` (`.replace(/[^\x20-\x7E\s]/g, ' ')`):
everything outside printable ASCII and `\s` becomes a space. -/
def stage2 (c : Char) : Char :=
  if printableAscii c || jsWs c then c else ' '

/-- Embedding of the source function `cleanText`: strip control
characters, restrict to printable ASCII plus whitespace, collapse
whitespace runs to single spaces and trim. -/
def cleanText (text : Str) : Str :=
  jsTrim (collapseWs ((text.map stage1).map stage2))

/-- Character class of the regex `[a-zA-Z0-9\s.,!?;:()\-"']` counted by
`isValidText`. -/
def acceptableChar (c : Char) : Bool :=
  (('a' ≤ c && c ≤ 'z') || ('A' ≤ c && c ≤ 'Z') || ('0' ≤ c && c ≤ '9')) ||
  jsWs c || c = '.' || c = ',' || c = '!' || c = '?' || c = ';' ||
  c = ':' || c = '(' || c = ')' || c = '-' || c = '"' || c = '\''

/-- Embedding of the source function `isValidText`: at least 10
characters, and the ratio of acceptable characters must be strictly
greater than 0.7 (the source computes `ratio > 0.7` on doubles; the exact
rational comparison agrees for all lengths below 10^15). -/
def isValidText (t : Str) : Bool :=
  if t.length < 10 then false
  else decide (mkRat 7 10 < mkRat (t.countP acceptableChar) t.length)

/-- Chosen end position of one iteration of the `splitTextIntoChunks`
loop: the naive end `start + chunkSize`, adjusted backwards to a sentence
terminator or space when one lies past the chunk midpoint.  The source
comparisons `x > start + chunkSize / 2` use real division by two; both
sides are doubled here so the model stays in `Int`. -/
def splitStepEnd (text : Str) (chunkSize : Int) (start : Int) : Int :=
  let len : Int := text.length
  let end0 := start + chunkSize
  if end0 < len then
    let lastSentence := jsLastIndexOf text '.' end0
    let lastSpace := jsLastIndexOf text ' ' end0
    if 2 * lastSentence > 2 * start + chunkSize then lastSentence + 1
    else if 2 * lastSpace > 2 * start + chunkSize then lastSpace
    else end0
  else end0

/-- Fuelled embedding of the `while (start < text.length)` loop of
`splitTextIntoChunks`, recording the `(start, end)` position pair of every
iteration.  `none` means the fuel ran out before the loop exited, so
`(∀ fuel, … = none)` states that the source loop runs forever. -/
def splitPosFuel (text : Str) (chunkSize overlap : Int) :
    Nat → Int → Option (List (Int × Int))
  | 0, start => if start < (text.length : Int) then none else some []
  | fuel + 1, start =>
    if start < (text.length : Int) then
      (splitPosFuel text chunkSize overlap fuel
          (splitStepEnd text chunkSize start - overlap)).map
        (fun ps => (start, splitStepEnd text chunkSize start) :: ps)
    else some []

/-- Embedding of the source function `splitTextIntoChunks` (fuelled): each
iteration pushes `text.slice(start, end).trim()`, and empty chunks are
filtered out at the end. -/
def splitTextIntoChunks (text : Str) (chunkSize overlap : Int) (fuel : Nat) :
    Option (List Str) :=
  (splitPosFuel text chunkSize overlap fuel 0).map
    (fun ps =>
      (ps.map (fun p => jsTrim (jsSlice text p.1 p.2))).filter
        (fun chunk => chunk.length > 0))

/-- The chunk list of `splitTextIntoChunks` with the fuel `length + 1`,
which suffices whenever the loop terminates at all under the default
parameters used by the upload handler (chunkSize 1000, overlap 200). -/
def splitTextIntoChunksD (text : Str) (chunkSize overlap : Int) : List Str :=
  (splitTextIntoChunks text chunkSize overlap (text.length + 1)).getD []

/-- Outcome of one call to the embedding backend
(`model.embedContent(text)`): the call may throw (`err`), return a result
without `embedding.values` (`missing`), or succeed with a vector. -/
inductive EmbedResult where
  | err : EmbedResult
  | missing : EmbedResult
  | ok : List ℚ → EmbedResult

/-- Worker loop of `generateEmbeddings`.  `oracle i t` is the backend's
behaviour for the `i`-th chunk, and `fallback i` gives the 768 random
values `Math.random() * 0.01` drawn for the `i`-th dummy embedding.
Returns the embedding list together with the list of texts actually sent
to the backend (invalid chunks are skipped before the call). -/
def genEmbAux (oracle : Nat → Str → EmbedResult) (fallback : Nat → Fin 768 → ℚ) :
    Nat → List Str → List (List ℚ) × List Str
  | _, [] => ([], [])
  | i, t :: ts =>
    let rest := genEmbAux oracle fallback (i + 1) ts
    if isValidText t then
      match oracle i t with
      | .ok v => (v :: rest.1, t :: rest.2)
      | .missing => (List.ofFn (fallback i) :: rest.1, t :: rest.2)
      | .err => (List.ofFn (fallback i) :: rest.1, t :: rest.2)
    else
      (List.ofFn (fallback i) :: rest.1, rest.2)

/-- Embedding of the source function `generateEmbeddings`: sequential
per-chunk embedding with re-validation and dummy-vector fallback. -/
def generateEmbeddings (oracle : Nat → Str → EmbedResult)
    (fallback : Nat → Fin 768 → ℚ) (texts : List Str) :
    List (List ℚ) × List Str :=
  genEmbAux oracle fallback 0 texts

/-- Character sanitization of the vector id
(`file.name.replace(/[^a-zA-Z0-9.-]/g, '_')`). -/
def sanitizeIdChar (c : Char) : Char :=
  if (('a' ≤ c && c ≤ 'z') || ('A' ≤ c && c ≤ 'Z') || ('0' ≤ c && c ≤ '9')) ||
      c = '.' || c = '-' then c else '_'

/-- Record persisted in the vector store: id, 768-dimension vector and the
metadata bag written by the upload handler. -/
structure VectorRecord where
  id : Str
  values : List ℚ
  filename : Str
  fileSize : Nat
  uploadDate : Str
  chunkIndex : Nat
  totalChunks : Nat
  content : Str
  fileType : Str
deriving DecidableEq

/-- Embedding of the `vectors = validChunks.map((chunk, chunkIndex) => …)`
construction of the upload handler (`ts` stands for `Date.now()`). -/
def mkVectors (fname : Str) (fileSize : Nat) (uploadDate fileType : Str)
    (ts : Nat) (chunks : List Str) (embs : List (List ℚ)) :
    List VectorRecord :=
  chunks.enum.map (fun ic =>
    { id := fname.map sanitizeIdChar ++ str "_chunk_" ++ natStr ic.1 ++
        str "_" ++ natStr ts
      values := embs.getD ic.1 []
      filename := fname
      fileSize := fileSize
      uploadDate := uploadDate
      chunkIndex := ic.1
      totalChunks := chunks.length
      content := ic.2
      fileType := fileType })

/-- Model of the Pinecone filtered query: of the records whose `filename`
metadata equals the filter value exactly, at most `topK` are returned (the
similarity ranking among them is irrelevant to every claim, which only
depends on the returned set's size and metadata). -/
def pineconeQuery (store : List VectorRecord) (fname : Str) (topK : Nat) :
    List VectorRecord :=
  (store.filter (fun r => r.filename = fname)).take topK

/-- Response of the upload endpoint: either the success payload
(`chunksCreated`, `vectorsUploaded`, `extractedTextLength`) or an error
response with its HTTP status. -/
inductive UploadOutcome where
  | success (chunksCreated vectorsUploaded extractedTextLength : Nat)
  | failure (status : Nat) (error : Str)
deriving DecidableEq

/-- Embedding of the upload POST handler from file-level validation to the
response, starting from the extracted text.  External effects are
parameters: `oracle`/`fallback` model the embedding backend and its dummy
vectors, `indexExists` models `pinecone.describeIndex` succeeding, `ts`
models `Date.now()`.  The source's local bindings `chunks`,
`limitedChunks`, `validChunks`, `embeddings` and `vectors` are inlined. -/
def uploadEndpoint (fname : Str) (fileSize : Nat) (uploadDate fileType : Str)
    (ts : Nat) (text : Str) (oracle : Nat → Str → EmbedResult)
    (fallback : Nat → Fin 768 → ℚ) (indexExists : Bool) : UploadOutcome :=
  if fileSize > 5 * 1024 * 1024 then
    .failure 400 (str "File size too large. Maximum size is 5MB.")
  else if fileType ≠ str ".txt" then
    .failure 400 (str "Currently only plain text (.txt) files are supported. Please convert your document to a text file and try again.")
  else if jsTrim text = [] then
    .failure 400 (str "No text could be extracted from the file")
  else if text.length < 50 then
    .failure 400 (str "Extracted text is too short. Please check if the file contains readable text.")
  else if ¬ isValidText text then
    .failure 400 (str "The uploaded file contains corrupted or unreadable text. Please ensure it's a valid text file.")
  else if (splitTextIntoChunksD text 1000 200).length = 0 then
    .failure 400 (str "No chunks could be created from the document")
  else if (((splitTextIntoChunksD text 1000 200).take 30).filter
      isValidText).length = 0 then
    .failure 400 (str "No valid text chunks could be created from the document")
  else if (generateEmbeddings oracle fallback
        (((splitTextIntoChunksD text 1000 200).take 30).filter
          isValidText)).1.length ≠
      (((splitTextIntoChunksD text 1000 200).take 30).filter
        isValidText).length then
    .failure 500 (str "Failed to generate embeddings for all chunks")
  else if ¬ indexExists then
    .failure 404 (str "Pinecone index not found. Please create an index named 'LegalDoc' with 768 dimensions in your Pinecone console.")
  else
    .success
      (((splitTextIntoChunksD text 1000 200).take 30).filter
        isValidText).length
      (mkVectors fname fileSize uploadDate fileType ts
        (((splitTextIntoChunksD text 1000 200).take 30).filter isValidText)
        (generateEmbeddings oracle fallback
          (((splitTextIntoChunksD text 1000 200).take 30).filter
            isValidText)).1).length
      text.length

/-- Embedding of the `analysisPrompts.summarize` template. -/
def promptSummarize : Str :=
  str "You are a legal document analyzer. Provide a clear, concise summary of this legal document in plain English. Focus on:\n- What type of document this is\n- Main parties involved\n- Key obligations and rights\n- Important dates or deadlines\n- Overall purpose and scope\n\nKeep the summary accessible to non-lawyers."

/-- Embedding of the `analysisPrompts.detailed` template. -/
def promptDetailed : Str :=
  str "You are a legal expert providing detailed analysis. Analyze this legal document comprehensively, covering:\n- Document structure and sections\n- Legal implications of each major clause\n- Rights and obligations of all parties\n- Potential consequences and enforcement mechanisms\n- Important legal terminology explanations\n- Risk factors and protections\n\nProvide thorough but understandable explanations."

/-- Embedding of the `analysisPrompts.risks` template. -/
def promptRisks : Str :=
  str "You are a legal risk analyst. Identify and explain potential risks and red flags in this legal document:\n- Financial risks and liabilities\n- Legal vulnerabilities\n- Unfavorable terms or clauses\n- Potential disputes or conflicts\n- Missing protections or safeguards\n- Recommendations for risk mitigation\n\nRate each risk as HIGH, MEDIUM, or LOW and explain why."

/-- Embedding of the `analysisPrompts["key-terms"]` template. -/
def promptKeyTerms : Str :=
  str "You are a legal document interpreter. Extract and explain the most important terms and clauses:\n- Define complex legal terminology\n- Explain key obligations and rights\n- Highlight critical deadlines and conditions\n- Identify penalty or consequence clauses\n- Point out any unusual or non-standard terms\n\nMake technical language accessible to general audiences."

/-- Embedding of the `analysisPrompts["plain-english"]` template. -/
def promptPlainEnglish : Str :=
  str "You are a legal translator. Convert the complex legal language in this document into plain English:\n- Replace legal jargon with everyday language\n- Simplify complex sentence structures\n- Explain what each section actually means in practice\n- Use analogies or examples where helpful\n- Maintain the essential legal meaning while making it understandable\n\nFocus on clarity and accessibility."

/-- Embedding of the catalog lookup
`analysisPrompts[analysisType] || analysisPrompts.summarize`: unknown
identifiers fall back to the summarize template. -/
def analysisPrompts (t : Str) : Str :=
  if t = str "summarize" then promptSummarize
  else if t = str "detailed" then promptDetailed
  else if t = str "risks" then promptRisks
  else if t = str "key-terms" then promptKeyTerms
  else if t = str "plain-english" then promptPlainEnglish
  else promptSummarize

/-- Embedding of the helper `formatAnalysisType`; the default branch
models `type.charAt(0).toUpperCase() + type.slice(1)` (for the ASCII
identifiers actually used, `Char.toUpper` agrees with JavaScript's
`toUpperCase`). -/
def formatAnalysisType (t : Str) : Str :=
  if t = str "summarize" then str "Document Summary"
  else if t = str "detailed" then str "Detailed Analysis"
  else if t = str "risks" then str "Risk Assessment"
  else if t = str "key-terms" then str "Key Terms & Clauses"
  else if t = str "plain-english" then str "Plain English Translation"
  else
    match t with
    | [] => []
    | c :: rest => c.toUpper :: rest

/-- Content assembly of the analysis handler:
`matches.map(m => m.metadata?.content).filter(content => content).join('\n\n')`
(the filter drops empty contents, which are falsy in JavaScript). -/
def relevantContentFor (store : List VectorRecord) (fileName : Str) : Str :=
  List.intercalate (str "\n\n")
    (((pineconeQuery store fileName 20).map VectorRecord.content).filter
      (fun c => !c.isEmpty))

/-- The grounded prompt
`${systemPrompt}\n\nDocument Content:\n${relevantContent}`; the source
builds the identical string in the primary and in the fallback branch. -/
def promptFor (store : List VectorRecord) (analysisType fileName : Str) : Str :=
  analysisPrompts analysisType ++ str "\n\nDocument Content:\n" ++
    relevantContentFor store fileName

/-- Embedding of the template literal returned when both models fail
(basic extraction fallback). -/
def basicAnalysisText (fileName analysisType relevantContent : Str)
    (matchCount : Nat) : Str :=
  str "Document Analysis for " ++ fileName ++
  str "\n          \nAnalysis Type: " ++ formatAnalysisType analysisType ++
  str "\n\nContent Summary:\nThe document contains " ++ natStr matchCount ++
  str " sections of content. \n\nKey Content Preview:\n" ++
  relevantContent.take 500 ++
  str "...\n\nNote: AI analysis is currently unavailable. This is a basic content extraction. Please try again later for full AI-powered analysis."

/-- JSON body produced by the analysis endpooint (fields absent from a
given branch are `none`). -/
structure AnalyzeResponse where
  success : Bool
  error : Option Str := none
  analysis : Option Str := none
  analysisTypeOut : Option Str := none
  fileNameOut : Option Str := none
  chunksAnalyzed : Option Nat := none
  note : Option Str := none
  warning : Option Str := none
deriving DecidableEq

/-- Observable invocation of a generative model: which tier was called and
with which prompt (used to state the cascade-ordering claim). -/
inductive CascadeEvent where
  | primaryCall (prompt : Str)
  | secondaryCall (prompt : Str)
deriving DecidableEq

/-- Embedding of the analysis POST handler from the vector-store query to
the response.  `primary`/`secondary` model the two generative models: a
`none` result is a thrown `generateContent` error, `some a` a successful
generation.  The second component is the ordered list of model
invocations performed. -/
def analyzeEndpoint (store : List VectorRecord) (analysisType fileName : Str)
    (primary secondary : Str → Option Str) :
    AnalyzeResponse × List CascadeEvent :=
  let qMatches := pineconeQuery store fileName 20
  if qMatches.isEmpty then
    ({ success := false, error := some (str "Document not found in database") }, [])
  else
    let relevantContent := relevantContentFor store fileName
    if relevantContent.isEmpty then
      ({ success := false, error := some (str "No content found for analysis") }, [])
    else
      let prompt := promptFor store analysisType fileName
      match primary prompt with
      | some analysis =>
        ({ success := true, analysis := some analysis,
           analysisTypeOut := some analysisType, fileNameOut := some fileName,
           chunksAnalyzed := some qMatches.length },
         [.primaryCall prompt])
      | none =>
        match secondary prompt with
        | some analysis =>
          ({ success := true, analysis := some analysis,
             analysisTypeOut := some analysisType, fileNameOut := some fileName,
             chunksAnalyzed := some qMatches.length,
             note := some (str "Used fallback model due to primary model unavailability") },
           [.primaryCall prompt, .secondaryCall prompt])
        | none =>
          ({ success := true,
             analysis := some (basicAnalysisText fileName analysisType
               relevantContent qMatches.length),
             analysisTypeOut := some analysisType, fileNameOut := some fileName,
             chunksAnalyzed := some qMatches.length,
             warning := some (str "AI analysis unavailable - showing basic content extraction") },
           [.primaryCall prompt, .secondaryCall prompt])

/-! ### Lemmas about the chunker -/

/-- Cursor progress of one loop iteration: when twice the overlap is at
most the chunk size (and the chunk size is positive), the chosen end lies
strictly beyond `start + overlap`, so the next cursor `end - overlap`
strictly advances. -/
theorem splitStepEnd_advance (text : Str) (chunkSize overlap start : Int)
    (hcs : 1 ≤ chunkSize) (_hov : 0 ≤ overlap) (h2 : 2 * overlap ≤ chunkSize) :
    start + overlap + 1 ≤ splitStepEnd text chunkSize start := by
  simp only [splitStepEnd]
  split
  · split
    · omega
    · split
      · omega
      · omega
  · omega

/-- Fuel `length - start` suffices to run the chunking loop to completion
when twice the overlap is at most the chunk size. -/
theorem splitPosFuel_total (text : Str) (chunkSize overlap : Int)
    (hcs : 1 ≤ chunkSize) (hov : 0 ≤ overlap) (h2 : 2 * overlap ≤ chunkSize) :
    ∀ (fuel : Nat) (start : Int), 0 ≤ start →
      (text.length : Int) ≤ start + fuel →
      (splitPosFuel text chunkSize overlap fuel start).isSome := by
  intro fuel
  induction fuel with
  | zero =>
    intro start h0 hle
    rw [splitPosFuel, if_neg (by omega)]
    rfl
  | succ n ih =>
    intro start h0 hle
    rw [splitPosFuel]
    split
    · have hadv := splitStepEnd_advance text chunkSize overlap start hcs hov h2
      have := ih (splitStepEnd text chunkSize start - overlap) (by omega)
        (by push_cast at hle ⊢; omega)
      show (Option.map _ (splitPosFuel text chunkSize overlap n
        (splitStepEnd text chunkSize start - overlap))).isSome = true
      cases ho : splitPosFuel text chunkSize overlap n
          (splitStepEnd text chunkSize start - overlap) with
      | none => rw [ho] at this; simp at this
      | some ps => rfl
    · rfl

/-- Input on which the chunking loop gets stuck although
`overlap < chunkSize` (chunkSize 10, overlap 8): the space at index 6
keeps being chosen as the end, so the cursor stays at `6 - 8 = -2`. -/
def c1Text : Str := str "abcdef ghijklmnopqrst"

/-- From cursor `-2` the loop never exits: every iteration recomputes the
end position 6 and returns to cursor `-2`. -/
theorem c1Text_stuck : ∀ n, splitPosFuel c1Text 10 8 n (-2) = none := by
  intro n
  induction n with
  | zero => rfl
  | succ n ih =>
    have key : splitPosFuel c1Text 10 8 (n + 1) (-2) =
        (splitPosFuel c1Text 10 8 n (-2)).map
          (fun ps => (((-2 : Int), (6 : Int))) :: ps) := rfl
    rw [key, ih]
    rfl

/-- C1: the claim fails on the code.  With `chunkSize = 10` and
`overlap = 8` (so `overlap < chunkSize`) the function neither terminates
on `c1Text` nor fails fast: no fuel makes the loop exit, i.e. the source
`while` loop runs forever instead of guarding `overlap >= chunkSize`. -/
theorem splitTextIntoChunks_no_guard_diverges :
    ¬ ∃ fuel, (splitTextIntoChunks c1Text 10 8 fuel).isSome = true := by
  rintro ⟨fuel, hf⟩
  have h0 : splitPosFuel c1Text 10 8 fuel 0 = none := by
    cases fuel with
    | zero => rfl
    | succ n =>
      have key : splitPosFuel c1Text 10 8 (n + 1) 0 =
          (splitPosFuel c1Text 10 8 n (-2)).map
            (fun ps => (((0 : Int), (6 : Int))) :: ps) := rfl
      rw [key, c1Text_stuck n]
      rfl
  unfold splitTextIntoChunks at hf
  rw [h0] at hf
  simp at hf

/-- C1 (amended): the chunking loop terminates (the cursor advances on
every iteration) whenever `chunkSize ≥ 1` and `2 * overlap ≤ chunkSize` —
which covers the defaults `(1000, 200)` used by the upload handler — with
fuel `text.length + 1`.  The source contains no fail-fast guard for
`overlap ≥ chunkSize`, and for `chunkSize / 2 < overlap < chunkSize` the
loop can diverge, as `splitTextIntoChunks_no_guard_diverges` shows. -/
theorem splitTextIntoChunks_terminates (text : Str) (chunkSize overlap : Int)
    (hcs : 1 ≤ chunkSize) (hov : 0 ≤ overlap) (h2 : 2 * overlap ≤ chunkSize) :
    (splitTextIntoChunks text chunkSize overlap (text.length + 1)).isSome = true := by
  unfold splitTextIntoChunks
  have h := splitPosFuel_total text chunkSize overlap hcs hov h2
    (text.length + 1) 0 le_rfl (by push_cast; omega)
  cases ho : splitPosFuel text chunkSize overlap (text.length + 1) 0 with
  | none => rw [ho] at h; simp at h
  | some ps => rfl

/-- Witness for `splitTextIntoChunks_terminates` at the default
parameters on a concrete text. -/
theorem splitTextIntoChunks_terminates_witness :
    (1 : Int) ≤ 1000 ∧ (0 : Int) ≤ 200 ∧ 2 * (200 : Int) ≤ 1000 ∧
    (splitTextIntoChunks (str "hello world") 1000 200
      ((str "hello world").length + 1)).isSome = true :=
  ⟨by norm_num, by norm_num, by norm_num,
    splitTextIntoChunks_terminates (str "hello world") 1000 200
      (by norm_num) (by norm_num) (by norm_num)⟩


/-- Normal form of `jsSlice` for non-negative indices: drop then take
(with the saturating arithmetic of `List.take`/`List.drop`). -/
theorem jsSlice_nonneg (l : Str) (s e : Int) (hs : 0 ≤ s) (he : 0 ≤ e) :
    jsSlice l s e = (l.drop s.toNat).take (e.toNat - s.toNat) := by
  simp only [jsSlice, min_def, max_def]
  split_ifs <;>
    first
      | (exfalso; omega)
      | (congr 1; omega)
      | (have h0 : e.toNat - s.toNat = 0 := by omega
         rw [h0, List.take_zero])
      | (apply List.take_eq_take.mpr
         rw [List.length_drop]
         omega)
      | (rw [List.drop_eq_nil_of_le (by omega), List.take_nil])

/-- Reconstruction of the text from the windows after the first one: every
window contributes its slice with the leading `overlap` characters
removed. -/
def tailWindows (text : Str) (overlap : Int) : List (Int × Int) → Str
  | [] => []
  | p :: ps =>
    (jsSlice text p.1 p.2).drop overlap.toNat ++ tailWindows text overlap ps

/-- Reconstruction of the text from all windows: the first window's slice
in full, then every later window's slice with its leading `overlap`
characters removed. -/
def reconstructWindows (text : Str) (overlap : Int) :
    List (Int × Int) → Str
  | [] => []
  | p :: ps => jsSlice text p.1 p.2 ++ tailWindows text overlap ps

/-- Running the loop from cursor `start` covers exactly the text from
position `start + overlap`, window by window. -/
theorem tailWindows_run (text : Str) (chunkSize overlap : Int)
    (hcs : 1 ≤ chunkSize) (hov : 0 ≤ overlap)
    (h2 : 2 * overlap ≤ chunkSize) :
    ∀ (fuel : Nat) (start : Int) (ps : List (Int × Int)), 0 ≤ start →
      splitPosFuel text chunkSize overlap fuel start = some ps →
      tailWindows text overlap ps = text.drop (start + overlap).toNat := by
  intro fuel
  induction fuel with
  | zero =>
    intro start ps h0 h
    rw [splitPosFuel] at h
    split at h
    · exact absurd h (by simp)
    · rename_i hge
      obtain rfl : ps = [] := by
        injection h with hx
        exact hx.symm
      rw [tailWindows]
      rw [List.drop_eq_nil_of_le (by omega)]
  | succ n ih =>
    intro start ps h0 h
    rw [splitPosFuel] at h
    split at h
    · rename_i hlt
      rw [Option.map_eq_some'] at h
      obtain ⟨ps₀, hrun, hps⟩ := h
      subst hps
      have hadv := splitStepEnd_advance text chunkSize overlap start hcs hov h2
      have hih := ih (splitStepEnd text chunkSize start - overlap) ps₀
        (by omega) hrun
      rw [tailWindows, hih]
      have he' : splitStepEnd text chunkSize start - overlap + overlap =
          splitStepEnd text chunkSize start := by ring
      rw [he']
      rw [jsSlice_nonneg text start (splitStepEnd text chunkSize start)
        (by omega) (by omega)]
      rw [List.drop_take, List.drop_drop]
      have h1 : start.toNat + overlap.toNat = (start + overlap).toNat := by
        omega
      rw [h1]
      have h3 : (splitStepEnd text chunkSize start).toNat - start.toNat -
          overlap.toNat = (splitStepEnd text chunkSize start).toNat -
            (start + overlap).toNat := by omega
      rw [h3]
      have h4 : List.drop (splitStepEnd text chunkSize start).toNat text =
          List.drop ((splitStepEnd text chunkSize start).toNat -
              (start + overlap).toNat)
            (List.drop (start + overlap).toNat text) := by
        rw [List.drop_drop]
        congr 1
        omega
      rw [h4]
      exact List.take_append_drop _ _
    · rename_i hge
      obtain rfl : ps = [] := by
        injection h with hx
        exact hx.symm
      rw [tailWindows]
      rw [List.drop_eq_nil_of_le (by omega)]

/-- Modelled from the spec's words (claim C2): "concatenating chunks while
dropping the trailing `overlap` characters of each non-final chunk". -/
def specDropTrailConcat (overlap : Nat) : List Str → Str
  | [] => []
  | [c] => c
  | c :: cs => c.take (c.length - overlap) ++ specDropTrailConcat overlap cs

/-- C2: the claim fails on the code.  On the text `"ab  cdef"` with
`chunkSize = 4`, `overlap = 1` the source returns the trimmed chunks
`["ab", "cd", "def"]`; dropping the trailing overlap character of each
non-final chunk and concatenating yields `"acdef"`, which is neither an
initial segment of the input text nor of its normalization — the
`.trim()` inside the loop discards boundary whitespace that the
reconstruction needs. -/
theorem splitChunks_trim_breaks_reconstruction :
    splitTextIntoChunksD (str "ab  cdef") 4 1 =
      [str "ab", str "cd", str "def"] ∧
    specDropTrailConcat 1 (splitTextIntoChunksD (str "ab  cdef") 4 1) =
      str "acdef" ∧
    ¬ (specDropTrailConcat 1 (splitTextIntoChunksD (str "ab  cdef") 4 1) <+:
        str "ab  cdef") ∧
    ¬ (specDropTrailConcat 1 (splitTextIntoChunksD (str "ab  cdef") 4 1) <+:
        cleanText (str "ab  cdef")) := by
  refine ⟨by decide, by decide, by decide, by decide⟩

/-- C2 (amended): the overlap-respecting reconstruction holds for the raw
(untrimmed) windows `text.slice(start, end)` of the loop: keeping the
first window in full and dropping the leading `overlap` characters of
every later window reconstructs the input text exactly.  (Equivalently,
dropping trailing overlaps works whenever every non-final window end lies
inside the text; the `.trim()` and empty-chunk filter applied to the
returned chunks break exact reconstruction, as
`splitChunks_trim_breaks_reconstruction` shows.)  The returned chunk list
is precisely the trimmed, empty-filtered image of these windows. -/
theorem splitChunks_window_reconstruction (text : Str)
    (chunkSize overlap : Int) (hcs : 1 ≤ chunkSize) (hov : 0 ≤ overlap)
    (h2 : 2 * overlap ≤ chunkSize) (ps : List (Int × Int))
    (h : splitPosFuel text chunkSize overlap (text.length + 1) 0 = some ps) :
    reconstructWindows text overlap ps = text ∧
    splitTextIntoChunks text chunkSize overlap (text.length + 1) =
      some ((ps.map (fun p => jsTrim (jsSlice text p.1 p.2))).filter
        (fun chunk => chunk.length > 0)) := by
  constructor
  · cases ps with
    | nil =>
      rw [splitPosFuel] at h
      split at h
      · rw [Option.map_eq_some'] at h
        obtain ⟨ps₀, _, hps⟩ := h
        exact absurd hps (by simp)
      · rename_i hge
        rw [reconstructWindows]
        have hlen : text.length = 0 := by omega
        exact (List.length_eq_zero.mp hlen).symm
    | cons p ps₀ =>
      rw [splitPosFuel] at h
      split at h
      · rename_i hlt
        rw [Option.map_eq_some'] at h
        obtain ⟨ps₁, hrun, hps⟩ := h
        cases hps
        have hadv := splitStepEnd_advance text chunkSize overlap 0 hcs hov h2
        have ht := tailWindows_run text chunkSize overlap hcs hov h2
          text.length (splitStepEnd text chunkSize 0 - overlap) ps₀
          (by omega) hrun
        rw [reconstructWindows, ht]
        have he' : splitStepEnd text chunkSize 0 - overlap + overlap =
            splitStepEnd text chunkSize 0 := by ring
        rw [he']
        rw [jsSlice_nonneg text 0 (splitStepEnd text chunkSize 0)
          le_rfl (by omega)]
        simp only [Int.toNat_zero, List.drop_zero, Nat.sub_zero]
        exact List.take_append_drop _ _
      · exact absurd h (by simp)
  · rw [splitTextIntoChunks, h]
    rfl

/-- Witness for `splitChunks_window_reconstruction` on a concrete text at
the default parameters. -/
theorem splitChunks_window_reconstruction_witness :
    reconstructWindows (str "hello world") 200 [((0 : Int), (1000 : Int))] =
      str "hello world" ∧
    splitTextIntoChunks (str "hello world") 1000 200
        ((str "hello world").length + 1) =
      some (([(((0 : Int), (1000 : Int)))].map
        (fun p => jsTrim (jsSlice (str "hello world") p.1 p.2))).filter
        (fun chunk => chunk.length > 0)) :=
  splitChunks_window_reconstruction (str "hello world") 1000 200
    (by norm_num) (by norm_num) (by norm_num) [(0, 1000)] (by decide)

/-! ### Lemmas about `isValidText` -/

/-- Integer characterization of `isValidText`: the strict rational ratio
comparison is equivalent to `7 * length < 10 * acceptableCount`. -/
theorem isValidText_iff_nat (t : Str) :
    isValidText t = true ↔
      10 ≤ t.length ∧ 7 * t.length < 10 * t.countP acceptableChar := by
  unfold isValidText
  split
  · rename_i hlen
    constructor
    · intro h; simp at h
    · rintro ⟨h1, -⟩; exact absurd h1 (by omega)
  · rename_i hlen
    rw [decide_eq_true_iff]
    rw [Rat.mkRat_eq_div, Rat.mkRat_eq_div]
    have hl : (0 : ℚ) < (t.length : ℚ) := by
      have h0 : 0 < t.length := by omega
      exact_mod_cast h0
    push_cast
    rw [div_lt_div_iff₀ (by norm_num) hl]
    constructor
    · intro h
      refine ⟨by omega, ?_⟩
      have h' : ((7 * t.length : ℕ) : ℚ) <
          ((10 * t.countP acceptableChar : ℕ) : ℚ) := by push_cast; linarith
      exact_mod_cast h'
    · rintro ⟨-, h⟩
      have h' : ((7 * t.length : ℕ) : ℚ) <
          ((10 * t.countP acceptableChar : ℕ) : ℚ) := by exact_mod_cast h
      push_cast at h'
      linarith

/-- C4: the claim fails on the code at the exact 70% boundary.  The text
`"abcdefg@@@"` has 10 characters of which exactly 7 are acceptable, so the
claim ("at least 70% ⇒ valid") predicts validity, but the source's strict
comparison `ratio > 0.7` rejects it. -/
theorem isValidText_boundary_counterexample :
    (10 ≤ (str "abcdefg@@@").length ∧
      7 * (str "abcdefg@@@").length ≤
        10 * (str "abcdefg@@@").countP acceptableChar) ∧
    isValidText (str "abcdefg@@@") = false := by
  refine ⟨⟨by decide, by decide⟩, by decide⟩

/-- C4 (amended): `isValidText t` returns true iff `t` has at least 10
characters and STRICTLY more than 70% of its characters belong to the
acceptable class; a text of length ≥ 10 with exactly 70% acceptable
characters is invalid. -/
theorem isValidText_characterization (t : Str) :
    isValidText t = true ↔
      10 ≤ t.length ∧ 7 * t.length < 10 * t.countP acceptableChar :=
  isValidText_iff_nat t

/-- Witness for `isValidText_characterization` on a concrete valid and a
concrete invalid text. -/
theorem isValidText_characterization_witness :
    isValidText (str "hello world") = true ∧
    isValidText (str "abcdefg@@@") ≠ true :=
  ⟨(isValidText_characterization (str "hello world")).mpr (by decide),
    fun h => by
      have h' := (isValidText_characterization (str "abcdefg@@@")).mp h
      exact absurd h'.2 (by decide)⟩

/-- C8: `isValidText` is monotonic under extension by acceptable
characters, and texts shorter than 10 characters are always invalid. -/
theorem isValidText_monotone :
    (∀ t s : Str, isValidText t = true →
      (∀ c ∈ s, acceptableChar c = true) → isValidText (t ++ s) = true) ∧
    (∀ t : Str, t.length < 10 → isValidText t = false) := by
  constructor
  · intro t s ht hs
    rw [isValidText_iff_nat] at ht ⊢
    obtain ⟨h1, h2⟩ := ht
    have hcount : (t ++ s).countP acceptableChar =
        t.countP acceptableChar + s.length := by
      rw [List.countP_append, List.countP_eq_length.mpr hs]
    rw [List.length_append, hcount]
    omega
  · intro t h
    unfold isValidText
    rw [if_pos h]

/-- Witness for `isValidText_monotone`: appending acceptable characters
to a concrete valid text, and a concrete short text. -/
theorem isValidText_monotone_witness :
    isValidText (str "hello world" ++ str "abc") = true ∧
    isValidText (str "short") = false :=
  ⟨isValidText_monotone.1 (str "hello world") (str "abc")
      (by decide) (by decide),
    isValidText_monotone.2 (str "short") (by decide)⟩


/-! ### Lemmas about `generateEmbeddings` -/

/-- Inductive specification of the embedding worker loop: one output
vector per input in order, only valid texts are sent to the backend,
invalid or erroring positions receive the positional fallback vector, and
all vectors are 768-dimensional whenever the backend honours its
dimension contract. -/
theorem genEmbAux_spec (oracle : Nat → Str → EmbedResult)
    (fallback : Nat → Fin 768 → ℚ) :
    ∀ (ts : List Str) (i : Nat),
      (genEmbAux oracle fallback i ts).1.length = ts.length ∧
      (∀ t ∈ (genEmbAux oracle fallback i ts).2, isValidText t = true) ∧
      (∀ j, j < ts.length →
        (isValidText (ts.getD j []) = false ∨
          oracle (i + j) (ts.getD j []) = .err) →
        (genEmbAux oracle fallback i ts).1.getD j [] =
          List.ofFn (fallback (i + j))) ∧
      ((∀ k t v, oracle k t = .ok v → v.length = 768) →
        ∀ v ∈ (genEmbAux oracle fallback i ts).1, v.length = 768) := by
  intro ts
  induction ts with
  | nil =>
    intro i
    refine ⟨rfl, ?_, ?_, ?_⟩
    · intro t ht
      exact absurd ht (List.not_mem_nil t)
    · intro j hj
      exact absurd hj (by rw [List.length_nil]; omega)
    · intro _ v hvm
      exact absurd hvm (List.not_mem_nil v)
  | cons t ts ih =>
    intro i
    obtain ⟨ih1, ih2, ih3, ih4⟩ := ih (i + 1)
    have hshift : ∀ j : Nat, i + (j + 1) = i + 1 + j := fun j => by omega
    have hjlt : ∀ j : Nat, j + 1 < (t :: ts).length → j < ts.length := by
      intro j hj
      rw [List.length_cons] at hj
      omega
    rw [genEmbAux]
    by_cases hv : isValidText t
    · rw [if_pos hv]
      cases ho : oracle i t with
      | ok v =>
        refine ⟨?_, ?_, ?_, ?_⟩
        · rw [List.length_cons, List.length_cons, ih1]
        · intro u hu
          rw [List.mem_cons] at hu
          rcases hu with hu | hu
          · rw [hu]; exact hv
          · exact ih2 u hu
        · intro j hj hcase
          cases j with
          | zero =>
            rw [List.getD_cons_zero, Nat.add_zero] at hcase
            rcases hcase with hc | hc
            · rw [hv] at hc
              exact absurd hc (by simp)
            · rw [ho] at hc
              exact absurd hc (by simp)
          | succ j =>
            rw [List.getD_cons_succ, hshift j]
            rw [List.getD_cons_succ, hshift j] at hcase
            exact ih3 j (hjlt j hj) hcase
        · intro h768 u hu
          rw [List.mem_cons] at hu
          rcases hu with hu | hu
          · rw [hu]; exact h768 i t v ho
          · exact ih4 h768 u hu
      | missing =>
        refine ⟨?_, ?_, ?_, ?_⟩
        · rw [List.length_cons, List.length_cons, ih1]
        · intro u hu
          rw [List.mem_cons] at hu
          rcases hu with hu | hu
          · rw [hu]; exact hv
          · exact ih2 u hu
        · intro j hj hcase
          cases j with
          | zero =>
            rw [List.getD_cons_zero, Nat.add_zero]
          | succ j =>
            rw [List.getD_cons_succ, hshift j]
            rw [List.getD_cons_succ, hshift j] at hcase
            exact ih3 j (hjlt j hj) hcase
        · intro h768 u hu
          rw [List.mem_cons] at hu
          rcases hu with hu | hu
          · rw [hu]; exact List.length_ofFn _
          · exact ih4 h768 u hu
      | err =>
        refine ⟨?_, ?_, ?_, ?_⟩
        · rw [List.length_cons, List.length_cons, ih1]
        · intro u hu
          rw [List.mem_cons] at hu
          rcases hu with hu | hu
          · rw [hu]; exact hv
          · exact ih2 u hu
        · intro j hj hcase
          cases j with
          | zero =>
            rw [List.getD_cons_zero, Nat.add_zero]
          | succ j =>
            rw [List.getD_cons_succ, hshift j]
            rw [List.getD_cons_succ, hshift j] at hcase
            exact ih3 j (hjlt j hj) hcase
        · intro h768 u hu
          rw [List.mem_cons] at hu
          rcases hu with hu | hu
          · rw [hu]; exact List.length_ofFn _
          · exact ih4 h768 u hu
    · rw [if_neg hv]
      refine ⟨?_, ih2, ?_, ?_⟩
      · rw [List.length_cons, List.length_cons, ih1]
      · intro j hj hcase
        cases j with
        | zero =>
          rw [List.getD_cons_zero, Nat.add_zero]
        | succ j =>
          rw [List.getD_cons_succ, hshift j]
          rw [List.getD_cons_succ, hshift j] at hcase
          exact ih3 j (hjlt j hj) hcase
      · intro h768 u hu
        rw [List.mem_cons] at hu
        rcases hu with hu | hu
        · rw [hu]; exact List.length_ofFn _
        · exact ih4 h768 u hu

/-- C6: `generateEmbeddings` is total over its input list: exactly one
vector per input text in order; chunks failing `isValidText` are never
sent to the backend (every text in the call list is valid) and get the
fallback vector; a backend error on a chunk is absorbed locally into the
fallback vector for that position; and every returned vector has 768
entries whenever the backend's successful vectors do (the fallback
vectors have 768 entries by construction). -/
theorem generateEmbeddings_total (oracle : Nat → Str → EmbedResult)
    (fallback : Nat → Fin 768 → ℚ) (texts : List Str) :
    (generateEmbeddings oracle fallback texts).1.length = texts.length ∧
    (∀ t ∈ (generateEmbeddings oracle fallback texts).2,
      isValidText t = true) ∧
    (∀ j, j < texts.length →
      (isValidText (texts.getD j []) = false ∨
        oracle j (texts.getD j []) = .err) →
      (generateEmbeddings oracle fallback texts).1.getD j [] =
        List.ofFn (fallback j)) ∧
    ((∀ k t v, oracle k t = .ok v → v.length = 768) →
      ∀ v ∈ (generateEmbeddings oracle fallback texts).1,
        v.length = 768) := by
  obtain ⟨h1, h2, h3, h4⟩ := genEmbAux_spec oracle fallback texts 0
  refine ⟨h1, h2, ?_, h4⟩
  intro j hj hcase
  have := h3 j hj (by rw [Nat.zero_add]; exact hcase)
  rw [Nat.zero_add] at this
  exact this

/-- Witness for `generateEmbeddings_total`: a backend that always throws
still yields one 768-entry fallback vector for the single valid chunk. -/
theorem generateEmbeddings_total_witness :
    (generateEmbeddings (fun _ _ => EmbedResult.err)
        (fun _ _ => (0 : ℚ)) [str "hello world"]).1.length = 1 ∧
    (generateEmbeddings (fun _ _ => EmbedResult.err)
        (fun _ _ => (0 : ℚ)) [str "hello world"]).1.getD 0 [] =
      List.ofFn (fun _ : Fin 768 => (0 : ℚ)) ∧
    (∀ v ∈ (generateEmbeddings (fun _ _ => EmbedResult.err)
        (fun _ _ => (0 : ℚ)) [str "hello world"]).1, v.length = 768) :=
  ⟨(generateEmbeddings_total _ _ _).1,
    (generateEmbeddings_total _ _ _).2.2.1 0 (by norm_num) (Or.inr rfl),
    (generateEmbeddings_total _ _ _).2.2.2 (fun _ _ _ h => nomatch h)⟩

/-! ### Lemmas about the vector store and the analysis endpoint -/

/-- One vector record per chunk: `mkVectors` preserves the chunk count. -/
theorem length_mkVectors (fname : Str) (fileSize : Nat)
    (uploadDate fileType : Str) (ts : Nat) (chunks : List Str)
    (embs : List (List ℚ)) :
    (mkVectors fname fileSize uploadDate fileType ts chunks embs).length =
      chunks.length := by
  unfold mkVectors
  rw [List.length_map, List.enum_length]

/-- Every record written by `mkVectors` carries the uploaded filename. -/
theorem mkVectors_filename (fname : Str) (fileSize : Nat)
    (uploadDate fileType : Str) (ts : Nat) (chunks : List Str)
    (embs : List (List ℚ)) :
    ∀ r ∈ mkVectors fname fileSize uploadDate fileType ts chunks embs,
      r.filename = fname := by
  intro r hr
  unfold mkVectors at hr
  obtain ⟨ic, -, rfl⟩ := List.mem_map.mp hr
  rfl

/-- The contents of the records written by `mkVectors` are exactly the
chunks, in order. -/
theorem mkVectors_contents (fname : Str) (fileSize : Nat)
    (uploadDate fileType : Str) (ts : Nat) (chunks : List Str)
    (embs : List (List ℚ)) :
    (mkVectors fname fileSize uploadDate fileType ts chunks embs).map
      VectorRecord.content = chunks := by
  unfold mkVectors
  rw [List.map_map]
  exact List.enum_map_snd chunks

/-- A filtered query over a store whose records all carry the filter
value returns `min storeSize topK` records. -/
theorem pineconeQuery_all_match (store : List VectorRecord) (fname : Str)
    (topK : Nat) (h : ∀ r ∈ store, r.filename = fname) :
    pineconeQuery store fname topK = store.take topK := by
  unfold pineconeQuery
  rw [List.filter_eq_self.mpr]
  intro r hr
  rw [decide_eq_true_iff]
  exact h r hr

/-- An `intercalate` whose first piece is non-empty is non-empty. -/
theorem intercalate_cons_ne_nil (sep x : Str) (xs : List Str)
    (hx : x ≠ []) : List.intercalate sep (x :: xs) ≠ [] := by
  cases xs with
  | nil =>
    simpa [List.intercalate, List.intersperse] using hx
  | cons y ys =>
    simp only [List.intercalate, List.intersperse, List.flatten]
    intro h
    rw [List.append_eq_nil] at h
    exact hx h.1

/-- C7: when the filtered query returns zero matches for the requested
filename, the analysis endpoint reports the not-found error (`success:
false`, HTTP 404 branch) without invoking any model, instead of
proceeding to analysis with empty content. -/
theorem analyze_zero_matches_not_found (store : List VectorRecord)
    (analysisType fileName : Str) (primary secondary : Str → Option Str)
    (h : pineconeQuery store fileName 20 = []) :
    (analyzeEndpoint store analysisType fileName primary secondary).1.success
        = false ∧
    (analyzeEndpoint store analysisType fileName primary secondary).1.error =
      some (str "Document not found in database") ∧
    (analyzeEndpoint store analysisType fileName primary secondary).2 = [] := by
  unfold analyzeEndpoint
  rw [h]
  exact ⟨rfl, rfl, rfl⟩

/-- Witness for `analyze_zero_matches_not_found` on the empty store. -/
theorem analyze_zero_matches_not_found_witness :
    (analyzeEndpoint [] (str "risks") (str "missing.txt")
        (fun _ => some (str "a")) (fun _ => some (str "a"))).1.success
        = false ∧
    (analyzeEndpoint [] (str "risks") (str "missing.txt")
        (fun _ => some (str "a")) (fun _ => some (str "a"))).1.error =
      some (str "Document not found in database") ∧
    (analyzeEndpoint [] (str "risks") (str "missing.txt")
        (fun _ => some (str "a")) (fun _ => some (str "a"))).2 = [] :=
  analyze_zero_matches_not_found [] (str "risks") (str "missing.txt")
    (fun _ => some (str "a")) (fun _ => some (str "a")) rfl

/-- C5: the model fallback cascade.  When the primary model throws, the
secondary model is invoked with the identical prompt, and basic-extraction
text can only be produced after that call (the invocation trace is exactly
primary-then-secondary).  When the secondary model also throws, the
endpoint still returns a success whose analysis text is non-empty,
contains the formatted analysis-type label, contains the literal excerpt
of the retrieved content capped at 500 characters, and carries the
explicit warning annotation. -/
theorem model_fallback_cascade (store : List VectorRecord)
    (analysisType fileName : Str) (primary secondary : Str → Option Str)
    (hm : pineconeQuery store fileName 20 ≠ [])
    (hc : relevantContentFor store fileName ≠ [])
    (hp : primary (promptFor store analysisType fileName) = none) :
    (analyzeEndpoint store analysisType fileName primary secondary).2 =
      [CascadeEvent.primaryCall (promptFor store analysisType fileName),
       CascadeEvent.secondaryCall (promptFor store analysisType fileName)] ∧
    (secondary (promptFor store analysisType fileName) = none →
      (analyzeEndpoint store analysisType fileName primary
          secondary).1.success = true ∧
      ∃ a, (analyzeEndpoint store analysisType fileName primary
          secondary).1.analysis = some a ∧
        a ≠ [] ∧
        (∃ p q, a = p ++ formatAnalysisType analysisType ++ q) ∧
        (∃ p q, a = p ++ (relevantContentFor store fileName).take 500 ++ q) ∧
        (analyzeEndpoint store analysisType fileName primary
            secondary).1.warning =
          some (str "AI analysis unavailable - showing basic content extraction")) := by
  have hm' : (pineconeQuery store fileName 20).isEmpty = false :=
    List.isEmpty_eq_false.mpr hm
  have hc' : (relevantContentFor store fileName).isEmpty = false :=
    List.isEmpty_eq_false.mpr hc
  simp only [analyzeEndpoint, hm', hc', hp, Bool.false_eq_true, if_false]
  constructor
  · cases hs : secondary (promptFor store analysisType fileName) <;> rfl
  · intro hs
    rw [hs]
    refine ⟨rfl, _, rfl, ?_, ?_, ?_, rfl⟩
    · simp only [basicAnalysisText, List.append_assoc]
      exact List.append_ne_nil_of_left_ne_nil (by decide) _
    · refine ⟨str "Document Analysis for " ++ fileName ++
        str "\n          \nAnalysis Type: ",
        str "\n\nContent Summary:\nThe document contains " ++
          natStr (pineconeQuery store fileName 20).length ++
          str " sections of content. \n\nKey Content Preview:\n" ++
          (relevantContentFor store fileName).take 500 ++
          str "...\n\nNote: AI analysis is currently unavailable. This is a basic content extraction. Please try again later for full AI-powered analysis.", ?_⟩
      simp only [basicAnalysisText, List.append_assoc]
    · refine ⟨str "Document Analysis for " ++ fileName ++
        str "\n          \nAnalysis Type: " ++
          formatAnalysisType analysisType ++
          str "\n\nContent Summary:\nThe document contains " ++
          natStr (pineconeQuery store fileName 20).length ++
          str " sections of content. \n\nKey Content Preview:\n",
        str "...\n\nNote: AI analysis is currently unavailable. This is a basic content extraction. Please try again later for full AI-powered analysis.", ?_⟩
      simp only [basicAnalysisText, List.append_assoc]

/-- Concrete one-record store used by witnesses of the analysis-endpoint
theorems. -/
def demoStore : List VectorRecord :=
  [{ id := str "f.txt_chunk_0_0"
     values := [0]
     filename := str "f.txt"
     fileSize := 10
     uploadDate := str "2024-01-01T00:00:00.000Z"
     chunkIndex := 0
     totalChunks := 1
     content := str "hello there friend"
     fileType := str ".txt" }]

/-- Witness for `model_fallback_cascade`: both models throw on a concrete
one-document store, and the basic extraction response is produced after
the ordered primary/secondary invocations. -/
theorem model_fallback_cascade_witness :
    (analyzeEndpoint demoStore (str "risks") (str "f.txt")
        (fun _ => none) (fun _ => none)).2 =
      [CascadeEvent.primaryCall
        (promptFor demoStore (str "risks") (str "f.txt")),
       CascadeEvent.secondaryCall
        (promptFor demoStore (str "risks") (str "f.txt"))] ∧
    ((analyzeEndpoint demoStore (str "risks") (str "f.txt")
        (fun _ => none) (fun _ => none)).1.success = true ∧
      ∃ a, (analyzeEndpoint demoStore (str "risks") (str "f.txt")
          (fun _ => none) (fun _ => none)).1.analysis = some a ∧
        a ≠ [] ∧
        (∃ p q, a = p ++ formatAnalysisType (str "risks") ++ q) ∧
        (∃ p q, a = p ++
          (relevantContentFor demoStore (str "f.txt")).take 500 ++ q) ∧
        (analyzeEndpoint demoStore (str "risks") (str "f.txt")
            (fun _ => none) (fun _ => none)).1.warning =
          some (str "AI analysis unavailable - showing basic content extraction")) :=
  ⟨(model_fallback_cascade demoStore (str "risks") (str "f.txt")
      (fun _ => none) (fun _ => none) (by decide) (by decide) rfl).1,
    (model_fallback_cascade demoStore (str "risks") (str "f.txt")
      (fun _ => none) (fun _ => none) (by decide) (by decide) rfl).2 rfl⟩

/-- C3 (amended): after ingesting `N` valid chunks for a fresh document,
the filtered `topK = 20` query returns `min N 20` matches, and the
analysis response reports `chunksAnalyzed = min N 20`.  The claimed
`exactly N` only holds when `N ≤ 20`; the claim fails for any upload with
`N` between 21 and the 30-chunk cap. -/
theorem ingest_query_roundtrip_topk (fname analysisType : Str)
    (fileSize : Nat) (uploadDate fileType : Str) (ts : Nat)
    (chunks : List Str) (embs : List (List ℚ))
    (primary secondary : Str → Option Str)
    (hne : chunks ≠ []) (hcne : ∀ c ∈ chunks, c ≠ []) :
    (pineconeQuery
        (mkVectors fname fileSize uploadDate fileType ts chunks embs)
        fname 20).length = min chunks.length 20 ∧
    (analyzeEndpoint
        (mkVectors fname fileSize uploadDate fileType ts chunks embs)
        analysisType fname primary secondary).1.chunksAnalyzed =
      some (min chunks.length 20) := by
  have hq : pineconeQuery
      (mkVectors fname fileSize uploadDate fileType ts chunks embs)
      fname 20 =
      (mkVectors fname fileSize uploadDate fileType ts chunks embs).take 20 :=
    pineconeQuery_all_match _ _ _
      (mkVectors_filename fname fileSize uploadDate fileType ts chunks embs)
  have hlen : (pineconeQuery
      (mkVectors fname fileSize uploadDate fileType ts chunks embs)
      fname 20).length = min chunks.length 20 := by
    rw [hq, List.length_take, length_mkVectors]
    omega
  refine ⟨hlen, ?_⟩
  have hpos : 0 < chunks.length := List.length_pos.mpr hne
  have hm : pineconeQuery
      (mkVectors fname fileSize uploadDate fileType ts chunks embs)
      fname 20 ≠ [] := by
    intro h
    rw [h] at hlen
    simp only [List.length_nil] at hlen
    omega
  have hrc : relevantContentFor
      (mkVectors fname fileSize uploadDate fileType ts chunks embs)
      fname ≠ [] := by
    unfold relevantContentFor
    rw [hq, List.map_take, mkVectors_contents]
    have hfilter : (chunks.take 20).filter (fun c => !c.isEmpty) =
        chunks.take 20 := by
      apply List.filter_eq_self.mpr
      intro c hcm
      rw [Bool.not_eq_true']
      exact List.isEmpty_eq_false.mpr (hcne c (List.take_subset _ _ hcm))
    rw [hfilter]
    cases hchunks : chunks.take 20 with
    | nil =>
      rw [List.take_eq_nil_iff] at hchunks
      rcases hchunks with h | h
      · exact absurd h (by norm_num)
      · exact absurd h hne
    | cons x xs =>
      refine intercalate_cons_ne_nil _ x xs (hcne x ?_)
      have hx : x ∈ chunks.take 20 := by
        rw [hchunks]
        exact List.mem_cons_self x xs
      exact List.take_subset _ _ hx
  have hm' := List.isEmpty_eq_false.mpr hm
  have hrc' := List.isEmpty_eq_false.mpr hrc
  simp only [analyzeEndpoint, hm', hrc', Bool.false_eq_true, if_false]
  cases hp : primary (promptFor
      (mkVectors fname fileSize uploadDate fileType ts chunks embs)
      analysisType fname) with
  | some a =>
    simp only [Option.some.injEq]
    exact hlen
  | none =>
    cases hs : secondary (promptFor
        (mkVectors fname fileSize uploadDate fileType ts chunks embs)
        analysisType fname) with
    | some a =>
      simp only [Option.some.injEq]
      exact hlen
    | none =>
      simp only [Option.some.injEq]
      exact hlen

/-- Witness for `ingest_query_roundtrip_topk` on a one-chunk ingestion. -/
theorem ingest_query_roundtrip_topk_witness :
    (pineconeQuery
        (mkVectors (str "f.txt") 10 (str "2024-01-01T00:00:00.000Z")
          (str ".txt") 0 [str "hello there friend"] [[0]])
        (str "f.txt") 20).length =
      min ([str "hello there friend"] : List Str).length 20 ∧
    (analyzeEndpoint
        (mkVectors (str "f.txt") 10 (str "2024-01-01T00:00:00.000Z")
          (str ".txt") 0 [str "hello there friend"] [[0]])
        (str "summarize") (str "f.txt")
        (fun _ => none) (fun _ => none)).1.chunksAnalyzed =
      some (min ([str "hello there friend"] : List Str).length 20) :=
  ingest_query_roundtrip_topk (str "f.txt") (str "summarize") 10
    (str "2024-01-01T00:00:00.000Z") (str ".txt") 0
    [str "hello there friend"] [[0]] (fun _ => none) (fun _ => none)
    (by decide) (by decide)

/-- Chunk list of a 21-chunk ingestion (between the query cap 20 and the
ingestion cap 30), used to refute the exact round-trip claim. -/
def c3Chunks : List Str := List.replicate 21 (str "aaaaaaaaaaa")

/-- Embeddings accompanying `c3Chunks`. -/
def c3Embs : List (List ℚ) := List.replicate 21 [0]

/-- Store holding the 21 ingested chunk records of document `d.txt`. -/
def c3Store : List VectorRecord :=
  mkVectors (str "d.txt") 100 (str "2024-01-01T00:00:00.000Z") (str ".txt")
    0 c3Chunks c3Embs

/-- C3: the claim fails on the code for chunk counts above the query's
`topK`.  Ingesting document `d.txt` with `chunksCreated = 21` (within the
30-chunk ingestion cap) and then querying with the exact-match filter
`filename = d.txt` returns only 20 matches, and the analysis response
reports `chunksAnalyzed = 20 ≠ 21`, because the query is capped at
`topK: 20`. -/
theorem ingest_query_roundtrip_counterexample :
    c3Store.length = 21 ∧
    (pineconeQuery c3Store (str "d.txt") 20).length = 20 ∧
    (analyzeEndpoint c3Store (str "summarize") (str "d.txt")
        (fun _ => none) (fun _ => none)).1.chunksAnalyzed = some 20 ∧
    (20 : Nat) ≠ 21 := by
  refine ⟨by decide, by decide, by decide, by decide⟩

set_option maxHeartbeats 1000000 in
/-- C10: in every successful upload response, `chunksCreated` equals
`vectorsUploaded`, both equal the number of chunks among the first 30
split chunks that pass `isValidText` (invalid chunks are silently dropped
before embedding and storage), and the value lies between 1 and 30. -/
theorem upload_success_counts (fname : Str) (fileSize : Nat)
    (uploadDate fileType : Str) (ts : Nat) (text : Str)
    (oracle : Nat → Str → EmbedResult) (fallback : Nat → Fin 768 → ℚ)
    (indexExists : Bool) (c v e : Nat)
    (h : uploadEndpoint fname fileSize uploadDate fileType ts text oracle
        fallback indexExists = .success c v e) :
    c = v ∧
    c = ((splitTextIntoChunksD text 1000 200).take 30).countP isValidText ∧
    1 ≤ c ∧ c ≤ 30 := by
  rw [uploadEndpoint] at h
  split_ifs at h
  · rw [UploadOutcome.success.injEq] at h
    obtain ⟨hc, hv, he⟩ := h
    subst hc
    refine ⟨?_, ?_, ?_, ?_⟩
    · rw [← hv, length_mkVectors]
    · rw [List.countP_eq_length_filter]
    · rename_i hvalid _ _
      omega
    · have hle := List.length_filter_le isValidText
        ((splitTextIntoChunksD text 1000 200).take 30)
      rw [List.length_take] at hle
      omega

set_option maxRecDepth 10000 in
/-- Witness for `upload_success_counts`: a concrete 60-character document
uploads successfully with one valid chunk and one vector. -/
theorem upload_success_counts_witness :
    uploadEndpoint (str "doc.txt") 100 (str "2024-01-01T00:00:00.000Z")
        (str ".txt") 0 (List.replicate 60 'a')
        (fun _ _ => EmbedResult.ok [1]) (fun _ _ => (0 : ℚ)) true =
      UploadOutcome.success 1 1 60 ∧
    (1 = 1 ∧
      1 = ((splitTextIntoChunksD (List.replicate 60 'a') 1000 200).take
        30).countP isValidText ∧
      1 ≤ 1 ∧ 1 ≤ 30) :=
  ⟨by decide,
    upload_success_counts (str "doc.txt") 100
      (str "2024-01-01T00:00:00.000Z") (str ".txt") 0
      (List.replicate 60 'a') (fun _ _ => EmbedResult.ok [1])
      (fun _ _ => (0 : ℚ)) true 1 1 60 (by decide)⟩

/-! ### Lemmas about `cleanText` (idempotence) -/

/-- Well-spacedness invariant of collapsed text: every whitespace
character is a plain space and no two adjacent characters are both
whitespace. -/
def spacedOk : Str → Bool
  | [] => true
  | c :: rest =>
    (!(jsWs c) || ((c == ' ') && (match rest with
      | [] => true
      | d :: _ => !(jsWs d)))) && spacedOk rest


/-- Unfolding equation of `spacedOk` at a cons cell. -/
theorem spacedOk_cons (c : Char) (rest : Str) :
    spacedOk (c :: rest) =
      ((!(jsWs c) || ((c == ' ') && (match rest with
        | [] => true
        | d :: _ => !(jsWs d)))) && spacedOk rest) := rfl

/-- The output of the whitespace-run collapse in mid-run state starts
with a non-whitespace character (or is empty). -/
theorem collapseWsAux_true_head (l : Str) :
    collapseWsAux true l = [] ∨
    ∃ d t, collapseWsAux true l = d :: t ∧ jsWs d = false := by
  induction l with
  | nil => exact Or.inl rfl
  | cons c rest ih =>
    cases hc : jsWs c with
    | true => simpa [collapseWsAux, hc] using ih
    | false => exact Or.inr ⟨c, collapseWsAux false rest, by simp [collapseWsAux, hc], hc⟩

/-- The collapse emits well-spaced text from any starting state. -/
theorem spacedOk_collapseWsAux (l : Str) :
    ∀ b, spacedOk (collapseWsAux b l) = true := by
  induction l with
  | nil => intro b; rfl
  | cons c rest ih =>
    intro b
    cases hc : jsWs c with
    | false =>
      simp only [collapseWsAux, hc, Bool.false_eq_true, if_false]
      simp only [spacedOk, hc, Bool.not_false, Bool.true_or, Bool.true_and]
      exact ih false
    | true =>
      cases b with
      | true =>
        simp only [collapseWsAux, hc, if_true]
        exact ih true
      | false =>
        simp only [collapseWsAux, hc, if_true, Bool.false_eq_true, if_false]
        rw [spacedOk_cons]
        rcases collapseWsAux_true_head rest with h | ⟨d, t, hdt, hd⟩
        · rw [h]
          rfl
        · rw [hdt]
          have hsp : spacedOk (d :: t) = true := by
            rw [← hdt]
            exact ih true
          simp [hd, hsp]

/-- Well-spacedness passes to the tail. -/
theorem spacedOk_tail (c : Char) (rest : Str)
    (h : spacedOk (c :: rest) = true) : spacedOk rest = true := by
  rw [spacedOk_cons, Bool.and_eq_true] at h
  exact h.2

/-- Collapsing is the identity on well-spaced text. -/
theorem collapseWsAux_of_spacedOk (v : Str) (h : spacedOk v = true) :
    collapseWsAux false v = v := by
  induction v with
  | nil => rfl
  | cons c rest ih =>
    have h2 := spacedOk_tail c rest h
    rw [spacedOk_cons, Bool.and_eq_true] at h
    obtain ⟨h1, -⟩ := h
    cases hc : jsWs c with
    | false =>
      simp only [collapseWsAux, hc, Bool.false_eq_true, if_false]
      rw [ih h2]
    | true =>
      rw [hc] at h1
      simp only [Bool.not_true, Bool.false_or, Bool.and_eq_true,
        beq_iff_eq] at h1
      obtain ⟨hsp, hpeek⟩ := h1
      subst hsp
      simp only [collapseWsAux, hc, if_true]
      cases rest with
      | nil => rfl
      | cons d t =>
        simp only at hpeek
        have hd : jsWs d = false := by
          cases hjd : jsWs d
          · rfl
          · rw [hjd] at hpeek; exact absurd hpeek (by simp)
        have ihdt := ih h2
        simp only [collapseWsAux, hd, Bool.false_eq_true, if_false] at ihdt ⊢
        exact congrArg (List.cons ' ') ihdt

/-- The left trim (`dropWhile`) preserves well-spacedness. -/
theorem spacedOk_dropWhile (l : Str) (h : spacedOk l = true) :
    spacedOk (l.dropWhile jsWs) = true := by
  induction l with
  | nil => exact h
  | cons c rest ih =>
    rw [List.dropWhile_cons]
    split
    · exact ih (spacedOk_tail c rest h)
    · exact h

/-- A right trim of a cons cell is empty or keeps the head. -/
theorem dropTrailWhile_cons_cases (p : Char → Bool) (c : Char) (rest : Str) :
    dropTrailWhile p (c :: rest) = [] ∨
    dropTrailWhile p (c :: rest) = c :: dropTrailWhile p rest := by
  rw [dropTrailWhile]
  split
  · exact Or.inl rfl
  · exact Or.inr rfl

/-- The right trim (`dropTrailWhile`) preserves well-spacedness. -/
theorem spacedOk_dropTrailWhile (l : Str) (h : spacedOk l = true) :
    spacedOk (dropTrailWhile jsWs l) = true := by
  induction l with
  | nil => exact h
  | cons c rest ih =>
    have h2 := spacedOk_tail c rest h
    rcases dropTrailWhile_cons_cases jsWs c rest with hc | hc
    · rw [hc]; rfl
    · rw [hc, spacedOk_cons, Bool.and_eq_true]
      refine ⟨?_, ih h2⟩
      rw [spacedOk_cons, Bool.and_eq_true] at h
      obtain ⟨h1, -⟩ := h
      cases hws : jsWs c with
      | false => rfl
      | true =>
        rw [hws] at h1
        simp only [Bool.not_true, Bool.false_or, Bool.and_eq_true,
          beq_iff_eq] at h1
        obtain ⟨hsp, hpeek⟩ := h1
        subst hsp
        simp only [Bool.not_true, Bool.false_or, beq_self_eq_true,
          Bool.true_and]
        cases rest with
        | nil => rfl
        | cons d t =>
          simp only at hpeek
          rcases dropTrailWhile_cons_cases jsWs d t with hd | hd
          · rw [hd]
          · rw [hd]
            simpa using hpeek

/-- The right trim is idempotent. -/
theorem dropTrailWhile_idem (p : Char → Bool) (l : Str) :
    dropTrailWhile p (dropTrailWhile p l) = dropTrailWhile p l := by
  induction l with
  | nil => rfl
  | cons c rest ih =>
    rw [dropTrailWhile]
    split
    · rfl
    · rename_i hcon
      rw [dropTrailWhile, ih]
      rw [if_neg hcon]

/-- A left trim either empties a list or leaves a head failing `p`. -/
theorem dropWhile_head_cases (p : Char → Bool) (l : Str) :
    l.dropWhile p = [] ∨
    ∃ d t, l.dropWhile p = d :: t ∧ p d = false := by
  induction l with
  | nil => exact Or.inl rfl
  | cons c rest ih =>
    rw [List.dropWhile_cons]
    split
    · exact ih
    · rename_i hc
      exact Or.inr ⟨c, rest, rfl, by
        cases hpc : p c
        · rfl
        · exact absurd (by rw [hpc]) hc⟩

/-- Trimming (`jsTrim`) is idempotent. -/
theorem jsTrim_idem (l : Str) : jsTrim (jsTrim l) = jsTrim l := by
  unfold jsTrim
  have hdw : (dropTrailWhile jsWs (l.dropWhile jsWs)).dropWhile jsWs =
      dropTrailWhile jsWs (l.dropWhile jsWs) := by
    rcases dropWhile_head_cases jsWs l with hw | ⟨d, t, hw, hd⟩
    · rw [hw]
      rfl
    · rw [hw]
      rcases dropTrailWhile_cons_cases jsWs d t with hu | hu
      · rw [hu]
        rfl
      · rw [hu, List.dropWhile_cons, hd]
        rw [if_neg (by simp)]
  rw [hdw, dropTrailWhile_idem]

/-- Characters produced by the collapse are spaces or input characters. -/
theorem mem_collapseWsAux (l : Str) :
    ∀ (b : Bool) (c : Char), c ∈ collapseWsAux b l → c = ' ' ∨ c ∈ l := by
  induction l with
  | nil =>
    intro b c hc
    exact absurd hc (List.not_mem_nil c)
  | cons a rest ih =>
    intro b c hc
    cases ha : jsWs a with
    | false =>
      simp only [collapseWsAux, ha, Bool.false_eq_true, if_false] at hc
      rw [List.mem_cons] at hc
      rcases hc with hc | hc
      · exact Or.inr (hc ▸ List.mem_cons_self a rest)
      · rcases ih false c hc with h | h
        · exact Or.inl h
        · exact Or.inr (List.mem_cons_of_mem a h)
    | true =>
      cases b with
      | true =>
        simp only [collapseWsAux, ha, if_true] at hc
        rcases ih true c hc with h | h
        · exact Or.inl h
        · exact Or.inr (List.mem_cons_of_mem a h)
      | false =>
        simp only [collapseWsAux, ha, if_true, Bool.false_eq_true,
          if_false] at hc
        rw [List.mem_cons] at hc
        rcases hc with hc | hc
        · exact Or.inl hc
        · rcases ih true c hc with h | h
          · exact Or.inl h
          · exact Or.inr (List.mem_cons_of_mem a h)

/-- Characters surviving the right trim come from the input. -/
theorem mem_dropTrailWhile (p : Char → Bool) (l : Str) :
    ∀ c, c ∈ dropTrailWhile p l → c ∈ l := by
  induction l with
  | nil => intro c hc; exact hc
  | cons a rest ih =>
    intro c hc
    rcases dropTrailWhile_cons_cases p a rest with h | h
    · rw [h] at hc
      exact absurd hc (List.not_mem_nil c)
    · rw [h, List.mem_cons] at hc
      rcases hc with hc | hc
      · exact hc ▸ List.mem_cons_self a rest
      · exact List.mem_cons_of_mem a (ih c hc)

/-- The alphabet restriction `stage2` keeps a character or yields a space. -/
theorem stage2_vals (c : Char) : stage2 c = c ∨ stage2 c = ' ' := by
  unfold stage2
  split
  · exact Or.inl rfl
  · exact Or.inr rfl

/-- The alphabet restriction `stage2` is idempotent on characters. -/
theorem stage2_idem (c : Char) : stage2 (stage2 c) = stage2 c := by
  rcases stage2_vals c with h | h
  · rw [h]
    exact h
  · rw [h]
    decide

/-- The output of `stage1` is never a control character. -/
theorem stage1_noCtl (c : Char) : isCtl (stage1 c) = false := by
  unfold stage1
  split
  · decide
  · rename_i h
    cases hic : isCtl c
    · rfl
    · exact absurd (by rw [hic]) h

/-- The control strip `stage1` keeps non-control characters. -/
theorem stage1_fix_of_noCtl (c : Char) (h : isCtl c = false) :
    stage1 c = c := by
  unfold stage1
  rw [if_neg (by rw [h]; exact Bool.false_ne_true)]

/-- The alphabet restriction `stage2` preserves the absence of control characters. -/
theorem stage2_noCtl (c : Char) (h : isCtl c = false) :
    isCtl (stage2 c) = false := by
  rcases stage2_vals c with hv | hv
  · rw [hv]; exact h
  · rw [hv]; decide

/-- Every character of a cleaned text is fixed by both replacement
stages. -/
theorem cleanText_chars_fixed (text : Str) :
    ∀ c ∈ cleanText text, stage1 c = c ∧ stage2 c = c := by
  intro c hc
  have hc1 : c ∈ collapseWs ((text.map stage1).map stage2) := by
    unfold cleanText jsTrim at hc
    exact (List.dropWhile_sublist jsWs).subset
      (mem_dropTrailWhile jsWs _ c hc)
  rcases mem_collapseWsAux _ false c hc1 with h | h
  · subst h
    exact ⟨by decide, by decide⟩
  · rw [List.mem_map] at h
    obtain ⟨b, hb, rfl⟩ := h
    rw [List.mem_map] at hb
    obtain ⟨a, -, rfl⟩ := hb
    refine ⟨?_, stage2_idem (stage1 a)⟩
    exact stage1_fix_of_noCtl _ (stage2_noCtl _ (stage1_noCtl a))

/-- C9: `cleanText` is idempotent — normalizing already-normalized text
is a no-op.  The cleaned text contains only printable ASCII with single
spaces and no leading or trailing whitespace, so the control-character
strip, the alphabet restriction, the whitespace collapse and the trim all
fix it. -/
theorem cleanText_idempotent (text : Str) :
    cleanText (cleanText text) = cleanText text := by
  have hm1 : (cleanText text).map stage1 = cleanText text := by
    calc (cleanText text).map stage1
        = (cleanText text).map id :=
          List.map_congr_left (fun a ha => (cleanText_chars_fixed text a ha).1)
      _ = cleanText text := List.map_id _
  have hm2 : (cleanText text).map stage2 = cleanText text := by
    calc (cleanText text).map stage2
        = (cleanText text).map id :=
          List.map_congr_left (fun a ha => (cleanText_chars_fixed text a ha).2)
      _ = cleanText text := List.map_id _
  have hsp : spacedOk (cleanText text) = true := by
    unfold cleanText jsTrim
    apply spacedOk_dropTrailWhile
    apply spacedOk_dropWhile
    exact spacedOk_collapseWsAux _ false
  have hcol : collapseWs (cleanText text) = cleanText text :=
    collapseWsAux_of_spacedOk _ hsp
  show jsTrim (collapseWs (((cleanText text).map stage1).map stage2)) =
    cleanText text
  rw [hm1, hm2, hcol]
  exact jsTrim_idem _
